import Mathlib

set_option maxRecDepth 20000

/-!
Verification development for the grammar-extraction and code-projection engine
of `codegen/generate.py`.  The Python source is shallowly embedded: text is
`List Char`, each method becomes a pure Lean function with the same name
(leading underscores dropped), regex scans become explicit character scanners
with the same match semantics, and the unbounded mutual recursion between the
two class generators is modelled with an explicit fuel parameter.
-/

abbrev Str := List Char

/-- The single-quote character (written via its code point). -/
def squote : Char := Char.ofNat 39

/-- The double-quote character (written via its code point). -/
def dquote : Char := Char.ofNat 34

/-- Python whitespace as used by `str.strip()` and the `\s` class of the
regexes in `generate.py` (ASCII range). -/
def isSpace (c : Char) : Bool :=
  c == ' ' || c == '\t' || c == '\n' || c == '\r' || c == '\x0b' || c == '\x0c'

/-- Python `str.strip()`. -/
def strip (l : Str) : Str :=
  ((l.dropWhile isSpace).reverse.dropWhile isSpace).reverse

/-- Python `sep.join(parts)`. -/
def joinSep (sep : Str) : List Str → Str
  | [] => []
  | [x] => x
  | x :: y :: rest => x ++ sep ++ joinSep sep (y :: rest)

/-- Python `s.split(sep)` for a one-character separator. -/
def splitChar (sep : Char) : Str → List Str
  | [] => [[]]
  | c :: rest =>
    if c == sep then [] :: splitChar sep rest
    else
      match splitChar sep rest with
      | w :: ws => (c :: w) :: ws
      | [] => [[c]]

/-- Python `str.capitalize()`: first character uppercased, the rest lowercased. -/
def capitalizePy : Str → Str
  | [] => []
  | c :: rest => c.toUpper :: rest.map Char.toLower

/-- `field_name[0].upper() + field_name[1:]` from `_generate_getters`. -/
def upFirst : Str → Str
  | [] => []
  | c :: rest => c.toUpper :: rest

/-- Python `s.rsplit('.', 1)[0]`: everything before the last dot. -/
def rsplitHead (s : Str) : Str :=
  joinSep ".".data ((splitChar '.' s).dropLast)

/-- `needle` is a prefix of `hay` (helper for Python's `in` on strings). -/
def startsWithStr : Str → Str → Bool
  | _, [] => true
  | [], _ :: _ => false
  | a :: xs, b :: ys => a == b && startsWithStr xs ys

/-- Python `needle in hay` for strings. -/
def hasSub : Str → Str → Bool
  | [], needle => startsWithStr [] needle
  | c :: rest, needle => startsWithStr (c :: rest) needle || hasSub rest needle

/-- Python `hay.endswith(needle)`. -/
def endsWithStr (hay needle : Str) : Bool :=
  startsWithStr hay.reverse needle.reverse

/-- Python string `<` comparison: lexicographic by code point. -/
def strLt : Str → Str → Bool
  | [], [] => false
  | [], _ :: _ => true
  | _ :: _, [] => false
  | a :: xs, b :: ys =>
    if a.toNat < b.toNat then true
    else if b.toNat < a.toNat then false
    else strLt xs ys

/-- Character classes of the identifier regexes: `[a-z_]`. -/
def isNameStart (c : Char) : Bool := c.isLower || c == '_'

/-- `[a-z0-9_]`. -/
def isNameChar (c : Char) : Bool := c.isLower || c.isDigit || c == '_'

/-- `[A-Z0-9_]`. -/
def isUpperNameChar (c : Char) : Bool := c.isUpper || c.isDigit || c == '_'

-- ===========================================================================
-- Data model (the dataclasses of generate.py)
-- ===========================================================================

/-- `RuleElement`: one element within a grammar rule (child rule or token). -/
structure RuleElement where
  name : Str
  is_token : Bool
  cardinality : Str
  is_rule_ref : Bool
deriving DecidableEq

/-- `RuleElement.is_optional`: `cardinality in ("?", "*")`. -/
def RuleElement.is_optional (e : RuleElement) : Bool :=
  e.cardinality == "?".data || e.cardinality == "*".data

/-- `RuleElement.is_list`: `cardinality in ("*", "+")`. -/
def RuleElement.is_list (e : RuleElement) : Bool :=
  e.cardinality == "*".data || e.cardinality == "+".data

/-- The source's `Alternative` dataclass (one alternative in a grammar rule);
renamed here because `Alternative` is taken by the Lean core library. -/
structure RuleAlternative where
  label : Option Str
  elements : List RuleElement
deriving DecidableEq

/-- `GrammarRule`: a complete grammar rule. -/
structure GrammarRule where
  name : Str
  alternatives : List RuleAlternative
deriving DecidableEq

/-- `GrammarRule.java_class_name`: snake_case to PascalCase. -/
def GrammarRule.java_class_name (r : GrammarRule) : Str :=
  ((splitChar '_' r.name).map capitalizePy).flatten

/-- `GrammarRule.has_multiple_alternatives`. -/
def GrammarRule.has_multiple_alternatives (r : GrammarRule) : Bool :=
  decide (1 < r.alternatives.length)

-- ===========================================================================
-- GrammarParser
-- ===========================================================================

/-- The character-by-character loop of `GrammarParser._split_alternatives`:
depth goes up on `(`/`[`, down on `)`/`]`, and a `|` at depth 0 closes the
current part.  At end of input a non-empty `current` is appended (stripped). -/
def splitAltLoop : Str → Int → Str → List Str → List Str
  | [], _, current, parts =>
    if current = [] then parts else parts ++ [strip current]
  | c :: rest, depth, current, parts =>
    if c == '(' || c == '[' then
      splitAltLoop rest (depth + 1) (current ++ [c]) parts
    else if c == ')' || c == ']' then
      splitAltLoop rest (depth - 1) (current ++ [c]) parts
    else if c == '|' && depth == 0 then
      splitAltLoop rest depth [] (parts ++ [strip current])
    else
      splitAltLoop rest depth (current ++ [c]) parts

/-- `GrammarParser._split_alternatives`: split a rule body by `|` at depth 0,
falling back to `[rule_body]` when no parts were produced. -/
def split_alternatives (rule_body : Str) : List Str :=
  let parts := splitAltLoop rule_body 0 [] []
  if parts = [] then [rule_body] else parts

/-- The `#\s*([a-z_][a-z0-9_]*)` match attempted right after a `#`:
skip whitespace greedily, then take a lowercase identifier greedily.
Returns the identifier and the remaining text after it. -/
def labelMatch (l : Str) : Option (Str × Str) :=
  match l.dropWhile isSpace with
  | [] => none
  | c :: tail =>
    if isNameStart c then
      some (c :: tail.takeWhile isNameChar, tail.dropWhile isNameChar)
    else none

/-- `re.search(r'#\s*([a-z_][a-z0-9_]*)', alt_text)`: the first label marker. -/
def labelSearch : Str → Option Str
  | [] => none
  | c :: rest =>
    if c == '#' then
      match labelMatch rest with
      | some p => some p.1
      | none => labelSearch rest
    else labelSearch rest

theorem lengthDropWhileLe {α : Type} (p : α → Bool) (l : List α) :
    (l.dropWhile p).length ≤ l.length := by
  induction l with
  | nil => simp [List.dropWhile]
  | cons c rest ih =>
    simp only [List.dropWhile]
    split
    · exact Nat.le_trans ih (Nat.le_succ _)
    · exact Nat.le_refl _

/-- `labelMatch` consumes at least one character of its input. -/
theorem labelMatch_rem_lt (l : Str) (p : Str × Str)
    (h : labelMatch l = some p) : p.2.length < l.length := by
  unfold labelMatch at h
  rcases hd : l.dropWhile isSpace with _ | ⟨c, tail⟩ <;> rw [hd] at h
  · exact absurd h (by simp)
  · by_cases hs : isNameStart c = true
    · simp only [hs, if_true, Option.some.injEq] at h
      have h2 : p.2 = tail.dropWhile isNameChar := by rw [← h]
      have hlen1 : (tail.dropWhile isNameChar).length ≤ tail.length :=
        lengthDropWhileLe isNameChar tail
      have hlen2 : (l.dropWhile isSpace).length ≤ l.length :=
        lengthDropWhileLe isSpace l
      rw [hd] at hlen2
      simp only [List.length_cons] at hlen2
      rw [h2]
      omega
    · simp [hs] at h

/-- The scan of `re.sub(r'#\s*[a-z_][a-z0-9_]*', '', alt_text)`: remove
every label marker, scanning left to right.  Fuel is the input length; a
match consumes at least one character, so the fuel never runs out. -/
def labelSubFuel : Nat → Str → Str
  | 0, _ => []
  | _, [] => []
  | fuel + 1, c :: rest =>
    if c == '#' then
      match labelMatch rest with
      | some p => labelSubFuel fuel p.2
      | none => c :: labelSubFuel fuel rest
    else c :: labelSubFuel fuel rest

/-- `re.sub(r'#\s*[a-z_][a-z0-9_]*', '', alt_text)`. -/
def labelSub (l : Str) : Str := labelSubFuel l.length l

/-- The fuel is irrelevant as long as it covers the input length. -/
theorem labelSubFuel_congr :
    ∀ (fuel1 fuel2 : Nat) (l : Str), l.length ≤ fuel1 → l.length ≤ fuel2 →
      labelSubFuel fuel1 l = labelSubFuel fuel2 l := by
  intro fuel1
  induction fuel1 with
  | zero =>
    intro fuel2 l h1 _
    have : l = [] := List.length_eq_zero.mp (Nat.le_zero.mp h1)
    subst this
    cases fuel2 <;> rfl
  | succ n ih =>
    intro fuel2 l h1 h2
    cases l with
    | nil => cases fuel2 <;> rfl
    | cons c rest =>
      cases fuel2 with
      | zero => exact absurd h2 (by simp)
      | succ m =>
        simp only [labelSubFuel]
        simp only [List.length_cons, Nat.succ_le_succ_iff] at h1 h2
        by_cases hc : (c == '#') = true
        · simp only [hc, if_true]
          cases hm : labelMatch rest with
          | some p =>
            have hlt := labelMatch_rem_lt rest p hm
            exact ih m p.2 (by omega) (by omega)
          | none =>
            rw [ih m rest h1 h2]
        · have hc2 : (c == '#') = false := by simpa using hc
          simp only [hc2, Bool.false_eq_true, if_false]
          rw [ih m rest h1 h2]

/-- One-step unfolding of `labelSub`. -/
theorem labelSub_cons (c : Char) (rest : Str) :
    labelSub (c :: rest)
      = if c == '#' then
          (match labelMatch rest with
           | some p => labelSub p.2
           | none => c :: labelSub rest)
        else c :: labelSub rest := by
  show labelSubFuel (rest.length + 1) (c :: rest) = _
  simp only [labelSubFuel]
  by_cases hc : (c == '#') = true
  · simp only [hc, if_true]
    cases hm : labelMatch rest with
    | some p =>
      have hlt := labelMatch_rem_lt rest p hm
      show labelSubFuel rest.length p.2 = labelSub p.2
      exact labelSubFuel_congr _ _ p.2 (by omega) (Nat.le_refl _)
    | none => rfl
  · have hc2 : (c == '#') = false := by simpa using hc
    simp only [hc2, Bool.false_eq_true, if_false]
    rfl

/-- `([?*+])?` after an element match: an optional cardinality character. -/
def cardSplit : Str → Str × Str
  | [] => ([], [])
  | d :: r => if d == '?' || d == '*' || d == '+' then ([d], r) else ([], d :: r)

/-- The quoted-literal branches `'[^']+'` / `"[^"]+"` of the element regex. -/
def quotedMatch (q : Char) (rest : Str) : Option (Str × Str × Str) :=
  match rest.takeWhile (fun x => !(x == q)), rest.dropWhile (fun x => !(x == q)) with
  | [], _ => none
  | _ :: _, [] => none
  | content, _ :: r1 =>
    let (card, r2) := cardSplit r1
    some (q :: content ++ [q], card, r2)

/-- One attempted match of the element regex
`([a-z_][a-z0-9_]*|[A-Z_][A-Z0-9_]*|'[^']+'|"[^"]+")([?*+])?`
at the current position: returns (group 1, cardinality, rest). -/
def elementMatch : Str → Option (Str × Str × Str)
  | [] => none
  | c :: rest =>
    if isNameStart c then
      let (card, r2) := cardSplit (rest.dropWhile isNameChar)
      some (c :: rest.takeWhile isNameChar, card, r2)
    else if c.isUpper then
      let (card, r2) := cardSplit (rest.dropWhile isUpperNameChar)
      some (c :: rest.takeWhile isUpperNameChar, card, r2)
    else if c == squote then quotedMatch squote rest
    else if c == dquote then quotedMatch dquote rest
    else none

/-- `finditer` of the element regex.  Fuel is the input length; every match
consumes at least one character, so the fuel never runs out. -/
def scanElementsFuel : Nat → Str → List (Str × Str)
  | 0, _ => []
  | _, [] => []
  | fuel + 1, c :: rest =>
    match elementMatch (c :: rest) with
    | some (g1, card, r2) => (g1, card) :: scanElementsFuel fuel r2
    | none => scanElementsFuel fuel rest

/-- The per-match body of `_parse_alternative`'s loop: drop quoted literals,
classify the rest by the case of the first character. -/
def elemsFromMatches : List (Str × Str) → List RuleElement
  | [] => []
  | (g1, card) :: rest =>
    match g1 with
    | [] => elemsFromMatches rest
    | c0 :: _ =>
      if c0 == squote || c0 == dquote then elemsFromMatches rest
      else
        { name := g1, is_token := c0.isUpper, cardinality := card,
          is_rule_ref := !c0.isUpper } :: elemsFromMatches rest

/-- `GrammarParser._parse_alternative`. -/
def parse_alternative (alt_text : Str) : List RuleElement :=
  elemsFromMatches (scanElementsFuel alt_text.length alt_text)

/-- The per-alternative body of `GrammarParser._parse_rule`'s loop:
search for a `#label`, strip it if found, then tokenize. -/
def parse_alt_entry (alt_text : Str) : RuleAlternative :=
  match labelSearch alt_text with
  | some ident => { label := some ident, elements := parse_alternative (labelSub alt_text) }
  | none => { label := none, elements := parse_alternative alt_text }

/-- `GrammarParser._parse_rule`. -/
def parse_rule (rule_name rule_body : Str) : GrammarRule :=
  { name := rule_name,
    alternatives := (split_alternatives rule_body).map parse_alt_entry }

/-- `GrammarParser._should_skip_rule`. -/
def should_skip_rule (rule_name : Str) : Bool :=
  rule_name == "sql_script".data ||
  rule_name == "unit_statement".data ||
  rule_name == "sql_plus_command".data ||
  rule_name == "sql_plus_command_no_semicolon".data

/-- Does the text, after whitespace, start with `;`?  (Used by the lazy
`(.+?)\s*;` tail of the rule regex.) -/
def semiAfterWs (l : Str) : Bool :=
  match l.dropWhile isSpace with
  | c :: _ => c == ';'
  | [] => false

/-- Drop the whitespace run and the `;` that follows it. -/
def afterSemi (l : Str) : Str :=
  match l.dropWhile isSpace with
  | _ :: r => r
  | [] => []

/-- The lazy `(.+?)\s*;` of the rule regex: the shortest non-empty body such
that what follows is whitespace and then `;`.  Returns (body, rest after `;`). -/
def lazyBody : Str → Option (Str × Str)
  | [] => none
  | c :: rest =>
    if semiAfterWs rest then some ([c], afterSemi rest)
    else
      match lazyBody rest with
      | some (b, rem) => some (c :: b, rem)
      | none => none

/-- Backtracking over the greedy `\s*` after the `:`: try the body starting
after all the whitespace first, then give one whitespace character at a time
back to the body. -/
def bodyBacktrack : Str → Str → Option (Str × Str)
  | [], start => lazyBody start
  | w :: wsRev, start =>
    match lazyBody start with
    | some r => some r
    | none => bodyBacktrack wsRev (w :: start)

/-- Match of `\s*(.+?)\s*;` on the text following the `:`. -/
def bodySearch (l : Str) : Option (Str × Str) :=
  bodyBacktrack (l.takeWhile isSpace).reverse (l.dropWhile isSpace)

/-- One attempted match of `^([a-z_][a-z0-9_]*)\s*:\s*(.+?)\s*;` at the
current (line-start) position: returns (rule name, rule body, rest). -/
def tryRuleMatch (l : Str) : Option (Str × Str × Str) :=
  match l with
  | [] => none
  | c :: rest =>
    if isNameStart c then
      match (rest.dropWhile isNameChar).dropWhile isSpace with
      | ':' :: afterColon =>
        match bodySearch afterColon with
        | some (body, rem) => some (c :: rest.takeWhile isNameChar, body, rem)
        | none => none
      | _ => none
    else none

/-- `finditer` of the rule regex (`re.MULTILINE | re.DOTALL`): scan every
position, a match may start only at position 0 or right after a newline, and
scanning resumes after the end of a match.  Fuel is the input length. -/
def scanRulesFuel : Nat → Str → Bool → List (Str × Str)
  | 0, _, _ => []
  | _, [], _ => []
  | fuel + 1, c :: rest, atStart =>
    if atStart then
      match tryRuleMatch (c :: rest) with
      | some (n, b, rem) => (n, b) :: scanRulesFuel fuel rem false
      | none => scanRulesFuel fuel rest (c == '\n')
    else scanRulesFuel fuel rest (c == '\n')

/-- Python `dict` assignment `rules[rule_name] = rule`: replace in place if
the key exists, append otherwise. -/
def dictInsert (m : List (Str × GrammarRule)) (k : Str) (v : GrammarRule) :
    List (Str × GrammarRule) :=
  match m with
  | [] => [(k, v)]
  | (k', v') :: rest =>
    if k' = k then (k, v) :: rest else (k', v') :: dictInsert rest k v

/-- The loop of `GrammarParser.parse`: skip denylisted rules, store the rest. -/
def parse_loop : List (Str × Str) → List (Str × GrammarRule) → List (Str × GrammarRule)
  | [], m => m
  | (n, b) :: rest, m =>
    if should_skip_rule n then parse_loop rest m
    else parse_loop rest (dictInsert m n (parse_rule n b))

/-- `GrammarParser.parse`: the rule model as an insertion-ordered map. -/
def parse (content : Str) : List (Str × GrammarRule) :=
  parse_loop (scanRulesFuel content.length content true) []

-- ===========================================================================
-- SemanticNodeGenerator
-- ===========================================================================

/-- `SemanticNodeGenerator._to_camel_case` (also duplicated verbatim in
`TreeBuilderGenerator`): snake_case to camelCase. -/
def to_camel_case (snake_str : Str) : Str :=
  match splitChar '_' snake_str with
  | [] => []
  | c0 :: rest => c0 ++ (rest.map capitalizePy).flatten

/-- `_rule_to_class_name` (present identically in both generators). -/
def rule_to_class_name (rule_name : Str) : Str :=
  ((splitChar '_' rule_name).map capitalizePy).flatten

/-- `SemanticNodeGenerator._get_field_type`. -/
def get_field_type (e : RuleElement) : Str :=
  let base_type := rule_to_class_name e.name
  if e.is_list then "List<".data ++ base_type ++ ">".data
  else if e.is_optional then base_type
  else base_type

/-- The shared loop shape of `_generate_fields`, `_generate_constructor` and
`_generate_getters`: walk the elements, skip non-rule-references, skip an
element whose camelCase field name was already seen, and record
(field name, field type) for the rest. -/
def fieldsLoop : List RuleElement → List Str → List (Str × Str)
  | [], _ => []
  | e :: rest, seen =>
    if e.is_rule_ref = false then fieldsLoop rest seen
    else
      let field_name := to_camel_case e.name
      if field_name ∈ seen then fieldsLoop rest seen
      else (field_name, get_field_type e) :: fieldsLoop rest (field_name :: seen)

/-- `SemanticNodeGenerator._generate_fields`. -/
def generate_fields (alt : RuleAlternative) : Str :=
  let fields := (fieldsLoop alt.elements []).map
    (fun p => "    private final ".data ++ p.2 ++ " ".data ++ p.1 ++ ";".data)
  if fields = [] then "    // No child nodes".data else joinSep "\n".data fields

/-- `SemanticNodeGenerator._generate_constructor`. -/
def generate_constructor (class_name : Str) (alt : RuleAlternative) : Str :=
  let ps := fieldsLoop alt.elements []
  if ps = [] then
    "    public ".data ++ class_name ++
      "() \x7b\n        // No child nodes\n    \x7d".data
  else
    let params := ps.map (fun p => p.2 ++ " ".data ++ p.1)
    let assignments := ps.map
      (fun p => "        this.".data ++ p.1 ++ " = ".data ++ p.1 ++ ";".data)
    "    public ".data ++ class_name ++ "(".data ++ joinSep ", ".data params ++
      ") \x7b\n".data ++ joinSep "\n".data assignments ++ "\n    \x7d".data

/-- `SemanticNodeGenerator._generate_getters`. -/
def generate_getters (alt : RuleAlternative) : Str :=
  let getters := (fieldsLoop alt.elements []).map (fun p =>
    "    public ".data ++ p.2 ++ " get".data ++ upFirst p.1 ++
      "() \x7b\n        return ".data ++ p.1 ++ ";\n    \x7d".data)
  joinSep "\n\n".data getters

/-- `SemanticNodeGenerator._determine_subdir`. -/
def determine_subdir (rule_name : Str) : Str :=
  if hasSub rule_name "statement".data then "statement".data
  else if hasSub rule_name "expression".data ||
      endsWithStr rule_name "_expression".data then "expression".data
  else if hasSub rule_name "clause".data then "clause".data
  else if hasSub rule_name "query".data || hasSub rule_name "subquery".data ||
      hasSub rule_name "select".data || hasSub rule_name "selected".data then
    "query".data
  else if hasSub rule_name "table".data || hasSub rule_name "column".data ||
      hasSub rule_name "index".data then "element".data
  else "misc".data

/-- `SEMANTIC_PACKAGE` of the script's configuration. -/
def semantic_package : Str :=
  "me.christianrobert.orapgsync.transformation.semantic".data

/-- `BASE_PACKAGE` of the script's configuration. -/
def base_package : Str :=
  "me.christianrobert.orapgsync.transformation".data

/-- `rule.alternatives[0] if rule.alternatives else Alternative(None, [])`,
used by `_generate_class` and `_generate_visit_method`. -/
def first_alt_or_default (r : GrammarRule) : RuleAlternative :=
  match r.alternatives with
  | [] => { label := none, elements := [] }
  | a :: _ => a

/-- Python truthiness of `alt.label` in `any(alt.label for alt in ...)`. -/
def labelTruthy : Option Str → Bool
  | none => false
  | some s => !s.isEmpty

/-- `any(alt.label for alt in rule.alternatives)`. -/
def hasLabeledAlt (r : GrammarRule) : Bool :=
  r.alternatives.any (fun a => labelTruthy a.label)

/-- The unlabeled-rule template string returned by `_generate_class`. -/
def generate_class_body (rule : GrammarRule) (subdir : Str) : Str :=
  let class_name := rule.java_class_name
  let package_name := semantic_package ++ ".".data ++ subdir
  let alt := first_alt_or_default rule
  "package ".data ++ package_name ++ ";\n\nimport ".data ++ semantic_package ++
    ".SemanticNode;\nimport ".data ++ rsplitHead semantic_package ++
    ".context.TransformationContext;\nimport ".data ++ rsplitHead semantic_package ++
    ".context.TransformationException;\n\nimport java.util.List;\n\n/**\n * Semantic node for grammar rule: ".data ++
    rule.name ++
    "\n *\n * Generated by codegen/generate.py - DO NOT EDIT MANUALLY\n * Delete this file and regenerate if grammar changes.\n */\npublic class ".data ++
    class_name ++ " implements SemanticNode \x7b\n\n".data ++
    generate_fields alt ++ "\n\n".data ++
    generate_constructor class_name alt ++ "\n\n".data ++
    generate_getters alt ++
    "\n\n    @Override\n    public String toPostgres(TransformationContext ctx) \x7b\n        // TODO: Implement transformation logic for ".data ++
    rule.name ++
    "\n        throw new TransformationException(\"".data ++ rule.name ++
    " transformation not yet implemented\");\n    \x7d\n\x7d\n".data

mutual

/-- `SemanticNodeGenerator._generate_class`.  In the source this method and
`_generate_interface_with_implementations` call each other with no base case
whenever the rule has a labeled alternative, so the embedding carries a fuel
parameter: `none` models the `RecursionError` of the Python original. -/
def generate_class : Nat → GrammarRule → Str → Option Str
  | 0, _, _ => none
  | fuel + 1, rule, subdir =>
    if hasLabeledAlt rule then
      generate_interface_with_implementations fuel rule
        (semantic_package ++ ".".data ++ subdir)
    else some (generate_class_body rule subdir)

/-- `SemanticNodeGenerator._generate_interface_with_implementations`:
`return self._generate_class(rule, package_name.split('.')[-1])`. -/
def generate_interface_with_implementations : Nat → GrammarRule → Str → Option Str
  | 0, _, _ => none
  | fuel + 1, rule, package_name =>
    generate_class fuel rule ((splitChar '.' package_name).getLastD [])

end

-- ===========================================================================
-- TreeBuilderGenerator
-- ===========================================================================

/-- The three-way branch of `_generate_visit_body` for one (kept) element:
the Java lines emitted for a list, optional, or required child. -/
def visitElemLines (rule_name : Str) (e : RuleElement) : List Str :=
  let field_name := to_camel_case e.name
  let class_name := rule_to_class_name e.name
  let ctx_method := "ctx.".data ++ e.name ++ "()".data
  if e.is_list then
    [ "        List<".data ++ class_name ++ "> ".data ++ field_name ++
        "List = new ArrayList<>();".data,
      "        if (".data ++ ctx_method ++ " != null) \x7b".data,
      "            for (PlSqlParser.".data ++ class_name ++ "Context item : ".data ++
        ctx_method ++ ") \x7b".data,
      "                ".data ++ field_name ++ "List.add((".data ++ class_name ++
        ") visit(item));".data,
      "            \x7d".data,
      "        \x7d".data ]
  else if e.is_optional then
    [ "        ".data ++ class_name ++ " ".data ++ field_name ++ " = null;".data,
      "        if (".data ++ ctx_method ++ " != null) \x7b".data,
      "            ".data ++ field_name ++ " = (".data ++ class_name ++
        ") visit(".data ++ ctx_method ++ ");".data,
      "        \x7d".data ]
  else
    [ "        ".data ++ class_name ++ " ".data ++ field_name ++ ";".data,
      "        if (".data ++ ctx_method ++ " == null) \x7b".data,
      "            throw new TransformationException(\"".data ++ rule_name ++
        " missing ".data ++ e.name ++ "\");".data,
      "        \x7d".data,
      "        ".data ++ field_name ++ " = (".data ++ class_name ++
        ") visit(".data ++ ctx_method ++ ");".data ]

/-- The constructor argument `_generate_visit_body` records for one element:
`{field_name}List` in the list branch, `{field_name}` otherwise. -/
def visitElemArg (e : RuleElement) : Str :=
  if e.is_list then to_camel_case e.name ++ "List".data else to_camel_case e.name

/-- The element loop of `_generate_visit_body`: skip non-rule-references and
duplicate field names, and collect the emitted lines and constructor args. -/
def visitBodyLoop (rule_name : Str) : List RuleElement → List Str → List Str × List Str
  | [], _ => ([], [])
  | e :: rest, seen =>
    if e.is_rule_ref = false then visitBodyLoop rule_name rest seen
    else
      let field_name := to_camel_case e.name
      if field_name ∈ seen then visitBodyLoop rule_name rest seen
      else
        let r := visitBodyLoop rule_name rest (field_name :: seen)
        (visitElemLines rule_name e ++ r.1, visitElemArg e :: r.2)

/-- `TreeBuilderGenerator._generate_visit_body`. -/
def generate_visit_body (rule : GrammarRule) (alt : RuleAlternative) : Str :=
  let r := visitBodyLoop rule.name alt.elements []
  let ret :=
    if r.2 = [] then
      "        return new ".data ++ rule.java_class_name ++ "();".data
    else
      "        return new ".data ++ rule.java_class_name ++ "(".data ++
        joinSep ", ".data r.2 ++ ");".data
  joinSep "\n".data (r.1 ++ [ret])

/-- `TreeBuilderGenerator._generate_visit_method`. -/
def generate_visit_method (rule : GrammarRule) : Str :=
  let alt := first_alt_or_default rule
  "    @Override\n    public SemanticNode visit".data ++ rule.java_class_name ++
    "(PlSqlParser.".data ++ rule.java_class_name ++ "Context ctx) \x7b\n".data ++
    generate_visit_body rule alt ++ "\n    \x7d\n".data

/-- Element insertion of the (stable) sort performed by
`sorted(rules.items())`: keys are unique, so comparison on keys suffices. -/
def insertByKey (p : Str × GrammarRule) :
    List (Str × GrammarRule) → List (Str × GrammarRule)
  | [] => [p]
  | q :: rest =>
    if strLt p.1 q.1 then p :: q :: rest else q :: insertByKey p rest

/-- `sorted(rules.items())`. -/
def sort_rules : List (Str × GrammarRule) → List (Str × GrammarRule)
  | [] => []
  | p :: rest => insertByKey p (sort_rules rest)

/-- `TreeBuilderGenerator._generate_builder_class`. -/
def generate_builder_class (rules : List (Str × GrammarRule)) : Str :=
  let visit_methods := (sort_rules rules).map (fun p => generate_visit_method p.2)
  "package ".data ++ base_package ++ ".builder;\n\nimport ".data ++
    rsplitHead base_package ++ ".antlr.PlSqlParser;\nimport ".data ++
    rsplitHead base_package ++ ".antlr.PlSqlParserBaseVisitor;\nimport ".data ++
    base_package ++ ".context.TransformationException;\nimport ".data ++
    base_package ++ ".semantic.SemanticNode;\nimport ".data ++
    base_package ++ ".semantic.statement.*;\nimport ".data ++
    base_package ++ ".semantic.expression.*;\nimport ".data ++
    base_package ++ ".semantic.clause.*;\nimport ".data ++
    base_package ++ ".semantic.query.*;\nimport ".data ++
    base_package ++ ".semantic.element.*;\nimport ".data ++
    base_package ++
    ".semantic.misc.*;\n\nimport java.util.ArrayList;\nimport java.util.List;\n\n/**\n * Visitor that converts ANTLR parse tree to semantic syntax tree.\n *\n * Generated by codegen/generate.py - DO NOT EDIT MANUALLY\n * Delete this file and regenerate if grammar changes.\n *\n * Architecture: Uses visitor pattern to delegate to child nodes.\n * Each visit method creates a semantic node and calls visit() on children.\n */\npublic class SemanticTreeBuilder extends PlSqlParserBaseVisitor<SemanticNode> \x7b\n\n".data ++
    joinSep "\n".data visit_methods ++ "\n\n\x7d\n".data

/-- The whole generation run of `main()`: parse the grammar, generate one
node class per rule in sorted order (with the given recursion fuel), and the
aggregate tree-builder class. -/
def run_pipeline (fuel : Nat) (content : Str) :
    List (Str × Option Str) × Str :=
  let rules := parse content
  ((sort_rules rules).map
    (fun p => (p.1, generate_class fuel p.2 (determine_subdir p.2.name))),
   generate_builder_class rules)

-- ===========================================================================
-- Specification-side definitions
-- ===========================================================================

/-- A character that is neither a grouping character nor `|` (the characters
that `_split_alternatives` treats specially). -/
def plainChar (c : Char) : Bool :=
  !(c == '(' || c == '[' || c == ')' || c == ']' || c == '|')

/-- A character that is not a grouping character (a `|` is allowed). -/
def noBracketChar (c : Char) : Bool :=
  !(c == '(' || c == '[' || c == ')' || c == ']')

/-- Modelled from the spec's phrase "nesting depth goes negative during
alternative splitting": scan with the same depth updates as
`_split_alternatives` and report whether the depth ever becomes negative. -/
def depth_goes_negative : Str → Int → Bool
  | [], _ => false
  | c :: rest, depth =>
    if c == '(' || c == '[' then depth_goes_negative rest (depth + 1)
    else if c == ')' || c == ']' then
      if depth - 1 < 0 then true else depth_goes_negative rest (depth - 1)
    else depth_goes_negative rest depth

/-- Specification-side helper for the de-duplication claims: keep, per
normalized field name, only the first element bearing that name. -/
def keepFirstByName : List RuleElement → List Str → List RuleElement
  | [], _ => []
  | e :: rest, seen =>
    let fn := to_camel_case e.name
    if fn ∈ seen then keepFirstByName rest seen
    else e :: keepFirstByName rest (fn :: seen)

-- ===========================================================================
-- Lemmas about alternative splitting
-- ===========================================================================

theorem plain_imp_noBracket (c : Char) (h : plainChar c = true) :
    noBracketChar c = true := by
  simp only [plainChar, Bool.not_eq_true', Bool.or_eq_false_iff] at h
  simp [noBracketChar, h.1, h.2]

/-- Characters that are neither brackets nor `|` are simply accumulated by
the splitting loop, at any depth. -/
theorem splitAltLoop_plain (l : Str) (h : l.all plainChar = true) :
    ∀ (rest cur : Str) (d : Int) (parts : List Str),
      splitAltLoop (l ++ rest) d cur parts = splitAltLoop rest d (cur ++ l) parts := by
  induction l with
  | nil => intro rest cur d parts; simp
  | cons c t ih =>
    intro rest cur d parts
    simp only [List.all_cons, Bool.and_eq_true] at h
    have h1 := h.1
    simp only [plainChar, Bool.not_eq_true', Bool.or_eq_false_iff] at h1
    obtain ⟨⟨⟨⟨e1, e2⟩, e3⟩, e4⟩, e5⟩ := h1
    have step : splitAltLoop (c :: (t ++ rest)) d cur parts
        = splitAltLoop (t ++ rest) d (cur ++ [c]) parts := by
      simp [splitAltLoop, e1, e2, e3, e4, e5]
    rw [List.cons_append, step, ih h.2]
    simp

/-- At non-zero depth, characters that are not brackets (including `|`) are
simply accumulated by the splitting loop: a `|` is a separator only when the
running depth is zero. -/
theorem splitAltLoop_nonzero (l : Str) (h : l.all noBracketChar = true) :
    ∀ (rest cur : Str) (d : Int) (parts : List Str), d ≠ 0 →
      splitAltLoop (l ++ rest) d cur parts = splitAltLoop rest d (cur ++ l) parts := by
  induction l with
  | nil => intro rest cur d parts _; simp
  | cons c t ih =>
    intro rest cur d parts hd
    simp only [List.all_cons, Bool.and_eq_true] at h
    have h1 := h.1
    simp only [noBracketChar, Bool.not_eq_true', Bool.or_eq_false_iff] at h1
    obtain ⟨⟨⟨e1, e2⟩, e3⟩, e4⟩ := h1
    have hd' : (d == 0) = false := by simpa using hd
    have step : splitAltLoop (c :: (t ++ rest)) d cur parts
        = splitAltLoop (t ++ rest) d (cur ++ [c]) parts := by
      simp [splitAltLoop, e1, e2, e3, e4, hd']
    rw [List.cons_append, step, ih h.2 _ _ _ _ hd]
    simp

theorem splitAltLoop_plain_nil (l : Str) (h : l.all plainChar = true)
    (cur : Str) (d : Int) (parts : List Str) :
    splitAltLoop l d cur parts = splitAltLoop [] d (cur ++ l) parts := by
  have := splitAltLoop_plain l h [] cur d parts
  simpa using this

theorem splitAltLoop_nonzero_nil (l : Str) (h : l.all noBracketChar = true)
    (cur : Str) (d : Int) (parts : List Str) (hd : d ≠ 0) :
    splitAltLoop l d cur parts = splitAltLoop [] d (cur ++ l) parts := by
  have := splitAltLoop_nonzero l h [] cur d parts hd
  simpa using this

theorem allPlain_imp_allNoBracket (l : Str) (h : l.all plainChar = true) :
    l.all noBracketChar = true := by
  induction l with
  | nil => rfl
  | cons c t ih =>
    simp only [List.all_cons, Bool.and_eq_true] at h ⊢
    exact ⟨plain_imp_noBracket c h.1, ih h.2⟩

theorem splitAltLoop_open (rest : Str) (d : Int) (cur : Str) (parts : List Str) :
    splitAltLoop ('(' :: rest) d cur parts
      = splitAltLoop rest (d + 1) (cur ++ ['(']) parts := rfl

theorem splitAltLoop_close (rest : Str) (d : Int) (cur : Str) (parts : List Str) :
    splitAltLoop (')' :: rest) d cur parts
      = splitAltLoop rest (d - 1) (cur ++ [')']) parts := rfl

theorem splitAltLoop_pipe_nonzero (rest : Str) (d : Int) (cur : Str)
    (parts : List Str) (hd : d ≠ 0) :
    splitAltLoop ('|' :: rest) d cur parts
      = splitAltLoop rest d (cur ++ ['|']) parts := by
  have hd' : (d == 0) = false := by simpa using hd
  simp [splitAltLoop, hd']

theorem splitAltLoop_pipe_zero (rest : Str) (cur : Str) (parts : List Str) :
    splitAltLoop ('|' :: rest) 0 cur parts
      = splitAltLoop rest 0 [] (parts ++ [strip cur]) := rfl

-- ===========================================================================
-- Claim theorems
-- ===========================================================================

/-- C1: `_split_alternatives` treats a `|` as a separator only when the
running nesting depth (up on `(`/`[`, down on `)`/`]`) is zero.  First
conjunct: a body of the shape `a (x|y) b` yields exactly one alternative.
Second conjunct: at depth zero a `|` does split.  Third conjunct: at any
non-zero depth the scan of bracket-free text (pipes included) only
accumulates characters and never closes a part. -/
theorem claim1_split_only_at_depth_zero (a x y b : Str)
    (ha : a.all plainChar = true) (hx : x.all plainChar = true)
    (hy : y.all plainChar = true) (hb : b.all plainChar = true) :
    (split_alternatives (a ++ '(' :: (x ++ '|' :: (y ++ ')' :: b)))).length = 1
    ∧ (b ≠ [] → split_alternatives (x ++ '|' :: b) = [strip x, strip b])
    ∧ (∀ (d : Int) (cur : Str) (parts : List Str), d ≠ 0 →
        splitAltLoop (x ++ '|' :: y) d cur parts
          = splitAltLoop [] d (cur ++ (x ++ '|' :: y)) parts) := by
  refine ⟨?_, ?_, ?_⟩
  · have key : splitAltLoop (a ++ '(' :: (x ++ '|' :: (y ++ ')' :: b))) 0 [] []
        = [strip (a ++ '(' :: (x ++ '|' :: (y ++ ')' :: b)))] := by
      rw [splitAltLoop_plain a ha, splitAltLoop_open]
      simp only [zero_add, List.nil_append]
      rw [splitAltLoop_nonzero x (allPlain_imp_allNoBracket x hx) _ _ _ _ one_ne_zero,
        splitAltLoop_pipe_nonzero _ _ _ _ one_ne_zero,
        splitAltLoop_plain y hy, splitAltLoop_close,
        splitAltLoop_plain_nil b hb]
      simp [splitAltLoop, List.append_assoc]
    simp [split_alternatives, key]
  · intro hbne
    have key2 : splitAltLoop (x ++ '|' :: b) 0 [] [] = [strip x, strip b] := by
      rw [splitAltLoop_plain x hx, splitAltLoop_pipe_zero,
        splitAltLoop_plain_nil b hb]
      simp [splitAltLoop, hbne]
    simp [split_alternatives, key2]
  · intro d cur parts hd
    have hall : (x ++ '|' :: y).all noBracketChar = true := by
      simp only [List.all_append, List.all_cons, Bool.and_eq_true]
      exact ⟨allPlain_imp_allNoBracket x hx, by decide,
        allPlain_imp_allNoBracket y hy⟩
    exact splitAltLoop_nonzero_nil (x ++ '|' :: y) hall cur d parts hd

/-- Witness for C1 at the spec's own example `a (x|y) b` (and `x| b`). -/
theorem claim1_split_only_at_depth_zero_witness :
    (split_alternatives
      ("a ".data ++ '(' :: ("x".data ++ '|' :: ("y".data ++ ')' :: " b".data)))).length = 1
    ∧ split_alternatives ("x".data ++ '|' :: " b".data)
        = [strip "x".data, strip " b".data] := by
  have h := claim1_split_only_at_depth_zero "a ".data "x".data "y".data " b".data
    (by decide) (by decide) (by decide) (by decide)
  exact ⟨h.1, h.2.1 (by decide)⟩

/-- C2: for every rule and every rule-reference element of the projected
alternative, `_generate_visit_body` selects exactly one of three branches by
cardinality.  `*`/`+`: the list lines (a fresh empty `ArrayList`, a
null-guard on the child collection, and an in-order append of the recursively
visited items); `?`: the nullable lines (field left `null` when the child is
absent); `""` (ONE): the mandatory lines, whose `throw` message names both
the rule and the element. -/
theorem claim2_visit_branches (rn : Str) (e : RuleElement)
    (href : e.is_rule_ref = true) :
    ((e.cardinality = "*".data ∨ e.cardinality = "+".data) →
      visitElemLines rn e =
        [ "        List<".data ++ rule_to_class_name e.name ++ "> ".data ++
            to_camel_case e.name ++ "List = new ArrayList<>();".data,
          "        if (ctx.".data ++ e.name ++ "() != null) \x7b".data,
          "            for (PlSqlParser.".data ++ rule_to_class_name e.name ++
            "Context item : ctx.".data ++ e.name ++ "()) \x7b".data,
          "                ".data ++ to_camel_case e.name ++ "List.add((".data ++
            rule_to_class_name e.name ++ ") visit(item));".data,
          "            \x7d".data,
          "        \x7d".data ]
      ∧ visitElemArg e = to_camel_case e.name ++ "List".data)
    ∧ (e.cardinality = "?".data →
      visitElemLines rn e =
        [ "        ".data ++ rule_to_class_name e.name ++ " ".data ++
            to_camel_case e.name ++ " = null;".data,
          "        if (ctx.".data ++ e.name ++ "() != null) \x7b".data,
          "            ".data ++ to_camel_case e.name ++ " = (".data ++
            rule_to_class_name e.name ++ ") visit(ctx.".data ++ e.name ++ "());".data,
          "        \x7d".data ]
      ∧ visitElemArg e = to_camel_case e.name)
    ∧ (e.cardinality = [] →
      visitElemLines rn e =
        [ "        ".data ++ rule_to_class_name e.name ++ " ".data ++
            to_camel_case e.name ++ ";".data,
          "        if (ctx.".data ++ e.name ++ "() == null) \x7b".data,
          "            throw new TransformationException(\"".data ++ rn ++
            " missing ".data ++ e.name ++ "\");".data,
          "        \x7d".data,
          "        ".data ++ to_camel_case e.name ++ " = (".data ++
            rule_to_class_name e.name ++ ") visit(ctx.".data ++ e.name ++ "());".data ]
      ∧ visitElemArg e = to_camel_case e.name) := by
  refine ⟨?_, ?_, ?_⟩
  · rintro (hc | hc) <;>
    · have hl : e.is_list = true := by
        show (e.cardinality == "*".data || e.cardinality == "+".data) = true
        rw [hc]; decide
      constructor
      · simp [visitElemLines, hl, List.append_assoc]
      · simp [visitElemArg, hl]
  · intro hc
    have hl : e.is_list = false := by
      show (e.cardinality == "*".data || e.cardinality == "+".data) = false
      rw [hc]; decide
    have ho : e.is_optional = true := by
      show (e.cardinality == "?".data || e.cardinality == "*".data) = true
      rw [hc]; decide
    constructor
    · simp [visitElemLines, hl, ho, List.append_assoc]
    · simp [visitElemArg, hl]
  · intro hc
    have hl : e.is_list = false := by
      show (e.cardinality == "*".data || e.cardinality == "+".data) = false
      rw [hc]; decide
    have ho : e.is_optional = false := by
      show (e.cardinality == "?".data || e.cardinality == "*".data) = false
      rw [hc]; decide
    constructor
    · simp [visitElemLines, hl, ho, List.append_assoc]
    · simp [visitElemArg, hl]

/-- Witness for C2 at one element of each cardinality. -/
theorem claim2_visit_branches_witness :
    visitElemLines "list_rule".data ⟨"item".data, false, "+".data, true⟩ =
      [ "        List<".data ++ rule_to_class_name "item".data ++ "> ".data ++
          to_camel_case "item".data ++ "List = new ArrayList<>();".data,
        "        if (ctx.".data ++ "item".data ++ "() != null) \x7b".data,
        "            for (PlSqlParser.".data ++ rule_to_class_name "item".data ++
          "Context item : ctx.".data ++ "item".data ++ "()) \x7b".data,
        "                ".data ++ to_camel_case "item".data ++ "List.add((".data ++
          rule_to_class_name "item".data ++ ") visit(item));".data,
        "            \x7d".data,
        "        \x7d".data ]
    ∧ visitElemArg ⟨"qux".data, false, "?".data, true⟩ = to_camel_case "qux".data
    ∧ visitElemLines "foo".data ⟨"baz".data, false, [], true⟩ =
      [ "        ".data ++ rule_to_class_name "baz".data ++ " ".data ++
          to_camel_case "baz".data ++ ";".data,
        "        if (ctx.".data ++ "baz".data ++ "() == null) \x7b".data,
        "            throw new TransformationException(\"".data ++ "foo".data ++
          " missing ".data ++ "baz".data ++ "\");".data,
        "        \x7d".data,
        "        ".data ++ to_camel_case "baz".data ++ " = (".data ++
          rule_to_class_name "baz".data ++ ") visit(ctx.".data ++ "baz".data ++ "());".data ] := by
  refine ⟨?_, ?_, ?_⟩
  · exact ((claim2_visit_branches "list_rule".data
      ⟨"item".data, false, "+".data, true⟩ rfl).1 (Or.inr rfl)).1
  · exact ((claim2_visit_branches "x".data
      ⟨"qux".data, false, "?".data, true⟩ rfl).2.1 rfl).2
  · exact ((claim2_visit_branches "foo".data
      ⟨"baz".data, false, [], true⟩ rfl).2.2 rfl).1

/-- C3 counterexample: the extractor has no error path at all.  The body
`a ) | b` drives the nesting depth negative, yet the rule is extracted
normally (one alternative, elements `a` and `b`) instead of raising a
`MalformedGrammar` error, and extraction of the other rule continues — so
the claimed error is never raised. -/
theorem claim3_counterexample :
    depth_goes_negative "a ) | b".data 0 = true
    ∧ parse "bad : a ) | b ;\ngood : x ;".data =
        [("bad".data, ⟨"bad".data,
           [⟨none, [⟨"a".data, false, [], true⟩, ⟨"b".data, false, [], true⟩]⟩]⟩),
         ("good".data, ⟨"good".data,
           [⟨none, [⟨"x".data, false, [], true⟩]⟩]⟩)] := by
  exact ⟨by decide, by decide⟩

/-- C3 (amended): extraction never raises an error.  A rule body whose depth
goes negative is still split normally — after an unmatched closing bracket
the depth is non-zero, so a following `|` is not a separator and the whole
body becomes a single alternative — and text that does not match the
`name : body ;` shape is silently skipped while all other rules are
extracted. -/
theorem claim3_no_error_amended (a b c : Str)
    (ha : a.all plainChar = true) (hb : b.all plainChar = true)
    (hc : c.all plainChar = true) :
    split_alternatives (a ++ ')' :: (b ++ '|' :: c))
      = [strip (a ++ ')' :: (b ++ '|' :: c))]
    ∧ parse "Bad+ : x ;\ngood : y ;".data =
        [("good".data, ⟨"good".data,
           [⟨none, [⟨"y".data, false, [], true⟩]⟩]⟩)] := by
  constructor
  · have key : splitAltLoop (a ++ ')' :: (b ++ '|' :: c)) 0 [] []
        = [strip (a ++ ')' :: (b ++ '|' :: c))] := by
      rw [splitAltLoop_plain a ha, splitAltLoop_close]
      have hall : (b ++ '|' :: c).all noBracketChar = true := by
        simp only [List.all_append, List.all_cons, Bool.and_eq_true]
        exact ⟨allPlain_imp_allNoBracket b hb, by decide,
          allPlain_imp_allNoBracket c hc⟩
      rw [splitAltLoop_nonzero_nil (b ++ '|' :: c) hall _ _ _ (by norm_num)]
      simp [splitAltLoop, List.append_assoc]
    simp [split_alternatives, key]
  · decide

/-- Witness for C3's amended theorem at the concrete body `a ) | b`. -/
theorem claim3_no_error_amended_witness :
    split_alternatives ("a ".data ++ ')' :: (" ".data ++ '|' :: " b".data))
      = [strip ("a ".data ++ ')' :: (" ".data ++ '|' :: " b".data))]
    ∧ parse "Bad+ : x ;\ngood : y ;".data =
        [("good".data, ⟨"good".data,
           [⟨none, [⟨"y".data, false, [], true⟩]⟩]⟩)] := by
  exact claim3_no_error_amended "a ".data " ".data " b".data
    (by decide) (by decide) (by decide)

-- ===========================================================================
-- Lemmas about field projection
-- ===========================================================================

/-- Token elements never contribute to the field loop. -/
theorem fieldsLoop_filter (es : List RuleElement) :
    ∀ seen, fieldsLoop es seen
      = fieldsLoop (es.filter (fun el => el.is_rule_ref)) seen := by
  induction es with
  | nil => intro seen; rfl
  | cons e rest ih =>
    intro seen
    by_cases h : e.is_rule_ref = true
    · simp [fieldsLoop, List.filter_cons, h, ih]
    · have h' : e.is_rule_ref = false := by simpa using h
      simp [fieldsLoop, List.filter_cons, h', ih]

/-- The names put out by the field loop are distinct and disjoint from the
seen set. -/
theorem fieldsLoop_nodup (es : List RuleElement) :
    ∀ seen, ((fieldsLoop es seen).map Prod.fst).Nodup
      ∧ ∀ n ∈ (fieldsLoop es seen).map Prod.fst, n ∉ seen := by
  induction es with
  | nil => intro seen; simp [fieldsLoop]
  | cons e rest ih =>
    intro seen
    by_cases h : e.is_rule_ref = true
    · by_cases hs : to_camel_case e.name ∈ seen
      · simpa [fieldsLoop, h, hs] using ih seen
      · have key := ih (to_camel_case e.name :: seen)
        have hl : fieldsLoop (e :: rest) seen
            = (to_camel_case e.name, get_field_type e)
                :: fieldsLoop rest (to_camel_case e.name :: seen) := by
          simp [fieldsLoop, h, hs]
        rw [hl]
        simp only [List.map_cons, List.nodup_cons]
        refine ⟨⟨?_, key.1⟩, ?_⟩
        · intro hmem
          exact (key.2 _ hmem) (List.mem_cons_self _ _)
        · intro n hn
          rcases List.mem_cons.mp hn with rfl | hn2
          · exact hs
          · intro hns
            exact (key.2 n hn2) (List.mem_cons_of_mem _ hns)
    · have h' : e.is_rule_ref = false := by simpa using h
      simpa [fieldsLoop, h'] using ih seen

/-- The field loop keeps exactly the first element per normalized name, and
that first element determines both the field name and the field type. -/
theorem fieldsLoop_keepFirst (es : List RuleElement) :
    ∀ seen, fieldsLoop es seen
      = (keepFirstByName (es.filter (fun el => el.is_rule_ref)) seen).map
          (fun el => (to_camel_case el.name, get_field_type el)) := by
  induction es with
  | nil => intro seen; rfl
  | cons e rest ih =>
    intro seen
    by_cases h : e.is_rule_ref = true
    · by_cases hs : to_camel_case e.name ∈ seen
      · simp [fieldsLoop, keepFirstByName, List.filter_cons, h, hs, ih]
      · simp [fieldsLoop, keepFirstByName, List.filter_cons, h, hs, ih]
    · have h' : e.is_rule_ref = false := by simpa using h
      simp [fieldsLoop, List.filter_cons, h', ih]

/-- Every rule-reference element's normalized name appears among the
produced field names (or was already seen). -/
theorem fieldsLoop_mem (es : List RuleElement) :
    ∀ seen el, el ∈ es → el.is_rule_ref = true →
      to_camel_case el.name ∈ (fieldsLoop es seen).map Prod.fst
      ∨ to_camel_case el.name ∈ seen := by
  induction es with
  | nil => intro seen el hmem; exact absurd hmem (by simp)
  | cons e rest ih =>
    intro seen el hmem href
    rcases List.mem_cons.mp hmem with rfl | hmem'
    · by_cases hs : to_camel_case el.name ∈ seen
      · exact Or.inr hs
      · left
        simp [fieldsLoop, href, hs]
    · by_cases h : e.is_rule_ref = true
      · by_cases hs : to_camel_case e.name ∈ seen
        · simpa [fieldsLoop, h, hs] using ih seen el hmem' href
        · have key := ih (to_camel_case e.name :: seen) el hmem' href
          have hl : fieldsLoop (e :: rest) seen
              = (to_camel_case e.name, get_field_type e)
                  :: fieldsLoop rest (to_camel_case e.name :: seen) := by
            simp [fieldsLoop, h, hs]
          rw [hl]
          simp only [List.map_cons]
          rcases key with hk | hk
          · exact Or.inl (List.mem_cons_of_mem _ hk)
          · rcases List.mem_cons.mp hk with heq | hseen
            · rw [heq]
              exact Or.inl (List.mem_cons_self _ _)
            · exact Or.inr hseen
      · have h' : e.is_rule_ref = false := by simpa using h
        simpa [fieldsLoop, h'] using ih seen el hmem' href

/-- The constructor arguments of the visit body follow the same
first-element-per-name selection. -/
theorem visitArgs_keepFirst (rn : Str) (es : List RuleElement) :
    ∀ seen, (visitBodyLoop rn es seen).2
      = (keepFirstByName (es.filter (fun el => el.is_rule_ref)) seen).map
          visitElemArg := by
  induction es with
  | nil => intro seen; rfl
  | cons e rest ih =>
    intro seen
    by_cases h : e.is_rule_ref = true
    · by_cases hs : to_camel_case e.name ∈ seen
      · simp [visitBodyLoop, keepFirstByName, List.filter_cons, h, hs, ih]
      · simp [visitBodyLoop, keepFirstByName, List.filter_cons, h, hs, ih]
    · have h' : e.is_rule_ref = false := by simpa using h
      simp [visitBodyLoop, List.filter_cons, h', ih]

/-- C4: the schema has one field per distinct rule-reference element and
none for token elements (they are filtered out and contribute nothing); the
produced field names are distinct; every rule-reference element's normalized
name is represented; and the field type is the referenced rule's class name,
wrapped in `List<...>` exactly when the cardinality is `*` or `+`, and the
bare class name for both `?` (OPTIONAL) and `""` (ONE). -/
theorem claim4_schema_fields (alt : RuleAlternative) (e : RuleElement) :
    fieldsLoop alt.elements []
      = fieldsLoop (alt.elements.filter (fun el => el.is_rule_ref)) []
    ∧ ((fieldsLoop alt.elements []).map Prod.fst).Nodup
    ∧ (∀ el ∈ alt.elements, el.is_rule_ref = true →
        to_camel_case el.name ∈ (fieldsLoop alt.elements []).map Prod.fst)
    ∧ get_field_type e
        = (if e.cardinality = "*".data ∨ e.cardinality = "+".data
           then "List<".data ++ rule_to_class_name e.name ++ ">".data
           else rule_to_class_name e.name) := by
  refine ⟨fieldsLoop_filter alt.elements [], (fieldsLoop_nodup alt.elements []).1,
    ?_, ?_⟩
  · intro el hmem href
    rcases fieldsLoop_mem alt.elements [] el hmem href with hk | hk
    · exact hk
    · exact absurd hk (by simp)
  · by_cases hc : e.cardinality = "*".data ∨ e.cardinality = "+".data
    · have hl : e.is_list = true := by
        show (e.cardinality == "*".data || e.cardinality == "+".data) = true
        rcases hc with hc | hc <;> rw [hc] <;> decide
      simp [get_field_type, hl, hc]
    · have hl : e.is_list = false := by
        show (e.cardinality == "*".data || e.cardinality == "+".data) = false
        push_neg at hc
        simp [hc.1, hc.2]
      simp [get_field_type, hl, hc, ite_self]

/-- Witness for C4 at the alternative of `foo : BAR baz qux? ;` and a `+`
element. -/
theorem claim4_schema_fields_witness :
    fieldsLoop [⟨"BAR".data, true, [], false⟩, ⟨"baz".data, false, [], true⟩,
        ⟨"qux".data, false, "?".data, true⟩] []
      = [("baz".data, "Baz".data), ("qux".data, "Qux".data)]
    ∧ ⟨"BAR".data, true, [], false⟩ ∈
        ([⟨"BAR".data, true, [], false⟩, ⟨"baz".data, false, [], true⟩,
          ⟨"qux".data, false, "?".data, true⟩] : List RuleElement)
    ∧ "baz".data ∈ (fieldsLoop [⟨"BAR".data, true, [], false⟩,
        ⟨"baz".data, false, [], true⟩,
        ⟨"qux".data, false, "?".data, true⟩] []).map Prod.fst
    ∧ get_field_type ⟨"item".data, false, "+".data, true⟩ = "List<Item>".data := by
  have h := claim4_schema_fields
    ⟨none, [⟨"BAR".data, true, [], false⟩, ⟨"baz".data, false, [], true⟩,
      ⟨"qux".data, false, "?".data, true⟩]⟩
    ⟨"item".data, false, "+".data, true⟩
  refine ⟨by decide, by decide, ?_, ?_⟩
  · have := h.2.2.1 ⟨"baz".data, false, [], true⟩ (by decide) (by decide)
    simpa using this
  · rw [h.2.2.2]
    decide

/-- C5: when two elements of one alternative normalize to the same field
name, only the first produces a schema field and a constructor argument:
the field loop equals the first-per-name selection mapped to
(name, type), the visit-body argument list equals the same selection mapped
to the argument name, and a rule with two identically named references
yields exactly one field, typed by the first reference. -/
theorem claim5_first_duplicate_wins (alt : RuleAlternative) (rn : Str) :
    fieldsLoop alt.elements []
      = (keepFirstByName (alt.elements.filter (fun el => el.is_rule_ref)) []).map
          (fun el => (to_camel_case el.name, get_field_type el))
    ∧ (visitBodyLoop rn alt.elements []).2
      = (keepFirstByName (alt.elements.filter (fun el => el.is_rule_ref)) []).map
          visitElemArg
    ∧ fieldsLoop [⟨"item".data, false, [], true⟩,
        ⟨"item".data, false, "+".data, true⟩] []
      = [("item".data, "Item".data)] := by
  exact ⟨fieldsLoop_keepFirst alt.elements [], visitArgs_keepFirst rn alt.elements [],
    by decide⟩

/-- C6 counterexample: for the grammar `list_rule : item+ ;` the projected
schema's single field is named `item` (the camelCase of the element name —
no pluralization happens anywhere in the generator), not `items` as the
claim states. -/
theorem claim6_counterexample :
    parse "list_rule : item+ ;".data
      = [("list_rule".data,
          ⟨"list_rule".data, [⟨none, [⟨"item".data, false, "+".data, true⟩]⟩]⟩)]
    ∧ (fieldsLoop [⟨"item".data, false, "+".data, true⟩] []).map Prod.fst
        = ["item".data]
    ∧ "items".data ∉
        (fieldsLoop [⟨"item".data, false, "+".data, true⟩] []).map Prod.fst := by
  exact ⟨by decide, by decide, by decide⟩

/-- C6 (amended): for `list_rule : item+ ;` the schema has one field named
`item` of type `List<Item>`, and the construction routine creates an empty
list, appends the recursively visited children in source order when the
child collection is present (leaving the list empty otherwise), and passes
it to the node constructor. -/
theorem claim6_list_rule_amended :
    parse "list_rule : item+ ;".data
      = [("list_rule".data,
          ⟨"list_rule".data, [⟨none, [⟨"item".data, false, "+".data, true⟩]⟩]⟩)]
    ∧ generate_fields ⟨none, [⟨"item".data, false, "+".data, true⟩]⟩
        = "    private final List<Item> item;".data
    ∧ generate_visit_body
        ⟨"list_rule".data, [⟨none, [⟨"item".data, false, "+".data, true⟩]⟩]⟩
        ⟨none, [⟨"item".data, false, "+".data, true⟩]⟩
      = ("        List<Item> itemList = new ArrayList<>();\n        if (ctx.item() != null) \x7b\n            for (PlSqlParser.ItemContext item : ctx.item()) \x7b\n                itemList.add((Item) visit(item));\n            \x7d\n        \x7d\n        return new ListRule(itemList);").data := by
  exact ⟨by decide, by decide, by decide⟩

/-- For every fuel, a rule with a (truthy) labeled alternative drives
`_generate_class` and `_generate_interface_with_implementations` into their
mutual recursion with no base case: no amount of fuel produces a class. -/
theorem generate_class_labeled_no_fuel (fuel : Nat) :
    (∀ (rule : GrammarRule) (subdir : Str), hasLabeledAlt rule = true →
      generate_class fuel rule subdir = none)
    ∧ (∀ (rule : GrammarRule) (pkg : Str), hasLabeledAlt rule = true →
      generate_interface_with_implementations fuel rule pkg = none) := by
  induction fuel with
  | zero => exact ⟨fun _ _ _ => rfl, fun _ _ _ => rfl⟩
  | succ n ih =>
    constructor
    · intro rule subdir h
      show generate_class (n + 1) rule subdir = none
      simp only [generate_class, h, if_true]
      exact ih.2 rule _ h
    · intro rule pkg h
      show generate_interface_with_implementations (n + 1) rule pkg = none
      simp only [generate_interface_with_implementations]
      exact ih.1 rule _ h

/-- C7 (code bug): for a rule with at least one labeled alternative the
node-class generator never terminates — `_generate_class` and
`_generate_interface_with_implementations` call each other unconditionally,
so the fueled embedding returns `none` for every fuel instead of the
first-alternative schema the code's own comment promises.  The visit-method
generator, in contrast, does depend only on the rule name and the first
alternative, as the second conjunct states. -/
theorem claim7_labeled_class_diverges (fuel : Nat) (rule : GrammarRule)
    (subdir : Str) (h : hasLabeledAlt rule = true) :
    generate_class fuel rule subdir = none
    ∧ (∀ r2 : GrammarRule, r2.name = rule.name →
        first_alt_or_default r2 = first_alt_or_default rule →
        generate_visit_method r2 = generate_visit_method rule) := by
  constructor
  · exact (generate_class_labeled_no_fuel fuel).1 rule subdir h
  · intro r2 hname halt
    simp only [generate_visit_method, generate_visit_body,
      GrammarRule.java_class_name, hname, halt]

/-- Witness for C7 at the grammar `choice : a #alt_a | b #alt_b ;`. -/
theorem claim7_labeled_class_diverges_witness :
    parse "choice : a #alt_a | b #alt_b ;".data
      = [("choice".data, ⟨"choice".data,
          [⟨some "alt_a".data, [⟨"a".data, false, [], true⟩]⟩,
           ⟨some "alt_b".data, [⟨"b".data, false, [], true⟩]⟩]⟩)]
    ∧ generate_class 1000
        ⟨"choice".data,
          [⟨some "alt_a".data, [⟨"a".data, false, [], true⟩]⟩,
           ⟨some "alt_b".data, [⟨"b".data, false, [], true⟩]⟩]⟩
        "misc".data = none := by
  exact ⟨by decide,
    (claim7_labeled_class_diverges 1000 _ "misc".data (by decide)).1⟩

/-- `re.search` finds the label after a hash-free prefix. -/
theorem labelSearch_append (a ident b : Str)
    (ha : a.all (fun c => !(c == '#')) = true)
    (hm : labelMatch (ident ++ b) = some (ident, b)) :
    labelSearch (a ++ '#' :: (ident ++ b)) = some ident := by
  induction a with
  | nil => simp [labelSearch, hm]
  | cons c t ih =>
    simp only [List.all_cons, Bool.and_eq_true] at ha
    have hc : (c == '#') = false := by simpa using ha.1
    simpa [labelSearch, hc] using ih ha.2

/-- `re.sub` removes the matched label marker and leaves the rest intact. -/
theorem labelSub_append (a ident b : Str)
    (ha : a.all (fun c => !(c == '#')) = true)
    (hm : labelMatch (ident ++ b) = some (ident, b)) :
    labelSub (a ++ '#' :: (ident ++ b)) = a ++ labelSub b := by
  induction a with
  | nil =>
    simp only [List.nil_append]
    rw [labelSub_cons]
    simp [hm]
  | cons c t ih =>
    simp only [List.all_cons, Bool.and_eq_true] at ha
    have hc : (c == '#') = false := by simpa using ha.1
    simp only [List.cons_append]
    rw [labelSub_cons]
    simp only [hc, Bool.false_eq_true, if_false]
    rw [ih ha.2]

/-- C8: an alternative whose text is a hash-free prefix followed by `#` and
a label match records that identifier as the alternative's label and
tokenizes only the stripped text, so no element is derived from the
marker. -/
theorem claim8_label_extraction (a ident b : Str)
    (ha : a.all (fun c => !(c == '#')) = true)
    (hm : labelMatch (ident ++ b) = some (ident, b)) :
    parse_alt_entry (a ++ '#' :: (ident ++ b))
      = ⟨some ident, parse_alternative (a ++ labelSub b)⟩ := by
  unfold parse_alt_entry
  rw [labelSearch_append a ident b ha hm, labelSub_append a ident b ha hm]

/-- Witness for C8 at the spec's example `a #foo`: label `foo`, and the
element list holds only the `a` reference — no leftover from the marker. -/
theorem claim8_label_extraction_witness :
    parse_alt_entry "a #foo".data
      = ⟨some "foo".data, [⟨"a".data, false, [], true⟩]⟩ := by
  have h := claim8_label_extraction "a ".data "foo".data [] (by decide) (by decide)
  rw [show ("a #foo".data : Str) = "a ".data ++ '#' :: ("foo".data ++ []) from by decide]
  rw [h]
  decide

theorem strLt_asymm : ∀ (a b : Str), strLt a b = true → strLt b a = false := by
  intro a
  induction a with
  | nil =>
    intro b h
    cases b with
    | nil => simp [strLt] at h
    | cons y ys => rfl
  | cons x xs ih =>
    intro b h
    cases b with
    | nil => simp [strLt] at h
    | cons y ys =>
      simp only [strLt] at h ⊢
      by_cases h1 : x.toNat < y.toNat
      · have h2 : ¬ y.toNat < x.toNat := by omega
        simp [h1, h2]
      · by_cases h2 : y.toNat < x.toNat
        · simp [h1, h2] at h
        · simp only [h1, h2, if_false] at h
          simp only [h1, h2, if_false]
          exact ih ys h

theorem strLt_trans :
    ∀ (a b c : Str), strLt a b = true → strLt b c = true → strLt a c = true := by
  intro a
  induction a with
  | nil =>
    intro b c hab hbc
    cases b with
    | nil => simp [strLt] at hab
    | cons y ys =>
      cases c with
      | nil => simp [strLt] at hbc
      | cons z zs => rfl
  | cons x xs ih =>
    intro b c hab hbc
    cases b with
    | nil => simp [strLt] at hab
    | cons y ys =>
      cases c with
      | nil => simp [strLt] at hbc
      | cons z zs =>
        simp only [strLt] at hab hbc ⊢
        by_cases h1 : x.toNat < y.toNat
        · by_cases h2 : y.toNat < z.toNat
          · simp [show x.toNat < z.toNat by omega]
          · by_cases h3 : z.toNat < y.toNat
            · simp [h2, h3] at hbc
            · simp [show x.toNat < z.toNat by omega]
        · by_cases h1' : y.toNat < x.toNat
          · simp [h1, h1'] at hab
          · by_cases h2 : y.toNat < z.toNat
            · simp [show x.toNat < z.toNat by omega]
            · by_cases h3 : z.toNat < y.toNat
              · simp [h2, h3] at hbc
              · simp only [h1, h1', if_false] at hab
                simp only [h2, h3, if_false] at hbc
                simp only [show ¬ x.toNat < z.toNat by omega,
                  show ¬ z.toNat < x.toNat by omega, if_false]
                exact ih ys zs hab hbc

theorem insertByKey_mem (p : Str × GrammarRule) :
    ∀ (l : List (Str × GrammarRule)) (y : Str × GrammarRule),
      y ∈ insertByKey p l → y = p ∨ y ∈ l := by
  intro l
  induction l with
  | nil =>
    intro y hy
    simp only [insertByKey, List.mem_singleton] at hy
    exact Or.inl hy
  | cons q rest ih =>
    intro y hy
    simp only [insertByKey] at hy
    by_cases hc : strLt p.1 q.1 = true
    · rw [if_pos hc] at hy
      rcases List.mem_cons.mp hy with rfl | hy'
      · exact Or.inl rfl
      · exact Or.inr hy'
    · rw [if_neg hc] at hy
      rcases List.mem_cons.mp hy with rfl | hy'
      · exact Or.inr (List.mem_cons_self _ _)
      · rcases ih y hy' with rfl | hy2
        · exact Or.inl rfl
        · exact Or.inr (List.mem_cons_of_mem _ hy2)

theorem insertByKey_pairwise (p : Str × GrammarRule)
    (l : List (Str × GrammarRule))
    (h : l.Pairwise (fun u v => strLt v.1 u.1 = false)) :
    (insertByKey p l).Pairwise (fun u v => strLt v.1 u.1 = false) := by
  induction l with
  | nil => simp [insertByKey]
  | cons q rest ih =>
    rcases List.pairwise_cons.mp h with ⟨hq, hrest⟩
    simp only [insertByKey]
    by_cases hc : strLt p.1 q.1 = true
    · rw [if_pos hc]
      refine List.pairwise_cons.mpr ⟨?_, h⟩
      intro y hy
      rcases List.mem_cons.mp hy with rfl | hy'
      · exact strLt_asymm _ _ hc
      · have hqy := hq y hy'
        cases hxx : strLt y.1 p.1 with
        | false => rfl
        | true =>
          have := strLt_trans _ _ _ hxx hc
          rw [this] at hqy
          exact absurd hqy (by simp)
    · rw [if_neg hc]
      refine List.pairwise_cons.mpr ⟨?_, ih hrest⟩
      intro y hy
      rcases insertByKey_mem p rest y hy with rfl | hy'
      · simpa using hc
      · exact hq y hy'

theorem sort_rules_pairwise (m : List (Str × GrammarRule)) :
    (sort_rules m).Pairwise (fun u v => strLt v.1 u.1 = false) := by
  induction m with
  | nil => simp [sort_rules]
  | cons p rest ih => exact insertByKey_pairwise p (sort_rules rest) ih

/-- C9: the whole generation run is a pure function of the grammar text —
equal inputs give identical rule models and byte-identical artifacts — and
the rules are processed in a fixed non-decreasing key order produced by
`sorted(rules.items())`. -/
theorem claim9_deterministic_sorted (fuel : Nat) (t1 t2 : Str) (h : t1 = t2) :
    run_pipeline fuel t1 = run_pipeline fuel t2
    ∧ parse t1 = parse t2
    ∧ (sort_rules (parse t1)).Pairwise (fun u v => strLt v.1 u.1 = false) := by
  subst h
  exact ⟨rfl, rfl, sort_rules_pairwise (parse t1)⟩

/-- Witness for C9 at a concrete two-rule grammar (given out of key order). -/
theorem claim9_deterministic_sorted_witness :
    run_pipeline 3 "b : x ;\na : y ;".data = run_pipeline 3 "b : x ;\na : y ;".data
    ∧ parse "b : x ;\na : y ;".data = parse "b : x ;\na : y ;".data
    ∧ (sort_rules (parse "b : x ;\na : y ;".data)).Pairwise
        (fun u v => strLt v.1 u.1 = false) :=
  claim9_deterministic_sorted 3 _ _ rfl

/-- C10: alternative splitting always returns a non-empty list (falling back
to the whole body), so every extracted rule has at least one alternative,
the generators' first-alternative access always yields an actual alternative
of the rule, and for a hypothetical rule with no alternatives the fallback
substitutes the empty alternative. -/
theorem claim10_first_alt_total (rule_body rule_name : Str) :
    split_alternatives rule_body ≠ []
    ∧ (parse_rule rule_name rule_body).alternatives ≠ []
    ∧ first_alt_or_default (parse_rule rule_name rule_body)
        ∈ (parse_rule rule_name rule_body).alternatives
    ∧ first_alt_or_default ⟨rule_name, []⟩ = ⟨none, []⟩ := by
  have h1 : split_alternatives rule_body ≠ [] := by
    unfold split_alternatives
    by_cases hp : splitAltLoop rule_body 0 [] [] = []
    · simp [hp]
    · simp [hp]
  have h2 : (parse_rule rule_name rule_body).alternatives ≠ [] := by
    simp only [parse_rule, ne_eq, List.map_eq_nil_iff]
    exact h1
  refine ⟨h1, h2, ?_, rfl⟩
  cases halt : (parse_rule rule_name rule_body).alternatives with
  | nil => exact absurd halt h2
  | cons a t =>
    have hfa : first_alt_or_default (parse_rule rule_name rule_body) = a := by
      unfold first_alt_or_default
      rw [halt]
    simp [hfa, halt]
